import Mathlib

/-!
Verification development for the gem_bot market-data aggregation core.

The embedding models, from the Python sources:
- `FeatureExtractor.update_order_book` (order-book store: snapshot and
  incremental update frames, Python dict semantics, the exact statement
  order of the method including where exceptions escape);
- `FeatureExtractor.extract_features` (feature derivation: spread,
  mid-price, weighted average price, 5-level book imbalance, trade
  imbalance);
- `PredictionSimulator.get_prediction` (signal classification);
- `GemBotCore.broadcast_to_strategists` (fan-out over the strategist set).

Prices and sizes are modelled as rationals (Python floats are IEEE
doubles; none of the claims below depends on rounding, only on exact
formulas, sign conditions and the raising of ZeroDivisionError, which
Python raises for float division by zero just as for integers).
Raised Python exceptions are modelled by returning the
partially-mutated state together with the error, since the caller
catches the exception while the mutated object survives.
-/

namespace GemBot

/-- A scalar value arriving in a JSON frame: either one that `float(...)`
accepts (carried as the rational it denotes) or one it rejects with
ValueError. -/
inductive JVal where
  | numeric (q : ℚ)
  | malformed
deriving DecidableEq, Repr

/-- `float(v)`: the parsed value, or `none` when Python raises ValueError. -/
def pyFloat : JVal → Option ℚ
  | .numeric q => some q
  | .malformed => none

/-- One raw `[price, size]` pair as it appears in a frame. -/
abbrev RawEntry := JVal × JVal

/-- A raw book frame as seen by `update_order_book`: the fields
`data['action']`, `data['data'][0]['bids']`, `data['data'][0]['asks']`,
`data['data'][0]['ts']`; a missing field raises KeyError at its access
site. -/
structure RawFrame where
  action : Option String
  bids : Option (List RawEntry)
  asks : Option (List RawEntry)
  ts : Option ℤ
deriving DecidableEq, Repr

/-- The Python exceptions `update_order_book` / `extract_features` can raise. -/
inductive PyErr where
  | keyError
  | valueError
deriving DecidableEq, Repr

/-- One side of the book: a Python dict from price to size, modelled as an
association list in insertion order (reachable dicts have no duplicate
keys; the operations below preserve that). -/
abbrev Dict := List (ℚ × ℚ)

/-- Python `d[p]` membership / read: the value at the first occurrence of
key `p`. -/
def dlookup : Dict → ℚ → Option ℚ
  | [], _ => none
  | kv :: rest, p => if kv.1 = p then some kv.2 else dlookup rest p

/-- Python `d[p] = v`: overwrite in place when the key is present,
append otherwise. -/
def dictInsert : Dict → ℚ → ℚ → Dict
  | [], p, v => [(p, v)]
  | kv :: rest, p, v => if kv.1 = p then (p, v) :: rest else kv :: dictInsert rest p v

/-- Python `del d[p]` (only ever called with the key present). -/
def dictErase : Dict → ℚ → Dict
  | [], _ => []
  | kv :: rest, p => if kv.1 = p then dictErase rest p else kv :: dictErase rest p

/-- The dict comprehension of the snapshot branch, per side: parse every
pair; a ValueError anywhere means nothing at all is built or assigned. -/
def parseEntry (e : RawEntry) : Option (ℚ × ℚ) :=
  match pyFloat e.1, pyFloat e.2 with
  | some p, some s => some (p, s)
  | _, _ => none

/-- All-or-nothing parse of a whole raw side (the comprehension body). -/
def parseSide : List RawEntry → Option (List (ℚ × ℚ))
  | [] => some []
  | e :: rest =>
    match parseEntry e, parseSide rest with
    | some pe, some prest => some (pe :: prest)
    | _, _ => none

/-- Building the comprehension's dict from the parsed pairs, left to
right, later duplicates overwriting earlier ones. -/
def dictOfListAux (d : Dict) : List (ℚ × ℚ) → Dict
  | [] => d
  | pv :: rest => dictOfListAux (dictInsert d pv.1 pv.2) rest

def dictOfList (l : List (ℚ × ℚ)) : Dict := dictOfListAux [] l

/-- The state owned by `FeatureExtractor` that book frames touch:
`self.order_book['bids']`, `self.order_book['asks']`, `self.last_update_ts`. -/
structure BookState where
  bids : Dict
  asks : Dict
  last_update_ts : Option ℤ
deriving DecidableEq, Repr

/-- `FeatureExtractor.__init__`: empty book, no timestamp yet. -/
def initState : BookState := ⟨[], [], none⟩

/-- The body of one iteration of the update loop: size 0 deletes the
level when present (and is a no-op otherwise), any other size is stored. -/
def applyEntry (d : Dict) (p s : ℚ) : Dict :=
  if s = 0 then
    if (dlookup d p).isSome then dictErase d p else d
  else dictInsert d p s

/-- The update loop over one side's raw entries: entries are parsed and
applied one at a time, so a ValueError leaves the entries before it
already applied. -/
def applyEntries (d : Dict) : List RawEntry → Dict × Option PyErr
  | [] => (d, none)
  | e :: rest =>
    match pyFloat e.1 with
    | none => (d, some .valueError)
    | some p =>
      match pyFloat e.2 with
      | none => (d, some .valueError)
      | some s => applyEntries (applyEntry d p s) rest

/-- The final `self.last_update_ts = int(data['data'][0]['ts'])` line:
a missing `ts` raises KeyError after the sides were already mutated. -/
def setTs (st : BookState) (ts : Option ℤ) : BookState × Option PyErr :=
  match ts with
  | none => (st, some .keyError)
  | some t => ({ st with last_update_ts := some t }, none)

/-- `FeatureExtractor.update_order_book`, statement by statement. The
second component records an escaped exception; the first is the state
the object is left in (mutations made before the raise survive). -/
def update_order_book (st : BookState) (f : RawFrame) : BookState × Option PyErr :=
  match f.action with
  | none => (st, some .keyError)
  | some a =>
    if a = "snapshot" then
      match f.bids with
      | none => (st, some .keyError)
      | some rawBids =>
        match parseSide rawBids with
        | none => (st, some .valueError)
        | some pb =>
          match f.asks with
          | none => ({ st with bids := dictOfList pb }, some .keyError)
          | some rawAsks =>
            match parseSide rawAsks with
            | none => ({ st with bids := dictOfList pb }, some .valueError)
            | some pa => setTs { st with bids := dictOfList pb, asks := dictOfList pa } f.ts
    else if a = "update" then
      match f.bids with
      | none => (st, some .keyError)
      | some rawBids =>
        match applyEntries st.bids rawBids with
        | (newBids, some e) => ({ st with bids := newBids }, some e)
        | (newBids, none) =>
          match f.asks with
          | none => ({ st with bids := newBids }, some .keyError)
          | some rawAsks =>
            match applyEntries st.asks rawAsks with
            | (newAsks, some e) => ({ st with bids := newBids, asks := newAsks }, some e)
            | (newAsks, none) => setTs { st with bids := newBids, asks := newAsks } f.ts
    else
      setTs st f.ts

/-- Folding a sequence of frames over the store, keeping the state an
escaped exception leaves behind (the caller logs and continues). -/
def applyFrames (st : BookState) : List RawFrame → BookState
  | [] => st
  | f :: fs => applyFrames (update_order_book st f).1 fs

/-! ### Feature extraction (`FeatureExtractor.extract_features`) -/

/-- Insertion step of sorting by price, descending (Python
`sorted(items, key=lambda x: x[0], reverse=True)`; dict keys are
distinct, so stability is irrelevant). -/
def insertDesc (x : ℚ × ℚ) : List (ℚ × ℚ) → List (ℚ × ℚ)
  | [] => [x]
  | y :: ys => if y.1 ≤ x.1 then x :: y :: ys else y :: insertDesc x ys

def sortDesc : List (ℚ × ℚ) → List (ℚ × ℚ)
  | [] => []
  | x :: xs => insertDesc x (sortDesc xs)

/-- Insertion step of sorting by price, ascending (Python
`sorted(items, key=lambda x: x[0])`). -/
def insertAsc (x : ℚ × ℚ) : List (ℚ × ℚ) → List (ℚ × ℚ)
  | [] => [x]
  | y :: ys => if x.1 ≤ y.1 then x :: y :: ys else y :: insertAsc x ys

def sortAsc : List (ℚ × ℚ) → List (ℚ × ℚ)
  | [] => []
  | x :: xs => insertAsc x (sortAsc xs)

/-- `sorted_bids[0]`: the best (maximum-priced) bid level, if any. -/
def bestBid (st : BookState) : Option (ℚ × ℚ) := (sortDesc st.bids).head?

/-- `sorted_asks[0]`: the best (minimum-priced) ask level, if any. -/
def bestAsk (st : BookState) : Option (ℚ × ℚ) := (sortAsc st.asks).head?

/-- `sum(size for price, size in levels)`. -/
def sumSizes (l : List (ℚ × ℚ)) : ℚ := (l.map Prod.snd).sum

/-- One retained trade (`FeatureExtractor.add_trade` stores ts, price,
size and side). -/
structure Trade where
  ts : ℤ
  price : ℚ
  size : ℚ
  side : String
deriving DecidableEq, Repr

/-- `sum(t['size'] for t in self.trades if t['side'] == s)`. -/
def tradeVolume (trades : List Trade) (s : String) : ℚ :=
  ((trades.filter (fun t => t.side == s)).map Trade.size).sum

/-- The feature dict built by `extract_features` (the wall-clock
`timestamp` field, `time.time()`, is outside the model; no claim uses it). -/
structure Features where
  best_bid : ℚ
  best_ask : ℚ
  spread : ℚ
  mid_price : ℚ
  wap : ℚ
  book_imbalance_5_levels : ℚ
  trade_imbalance : ℚ
  last_book_update_ts : Option ℤ
  last_trade_ts : Option ℤ
deriving DecidableEq, Repr

/-- Outcome of `extract_features`: `None` for an empty side, an escaped
ZeroDivisionError from the unguarded WAP division, or the feature dict. -/
inductive ExtractResult where
  | unavailable
  | zeroDivisionError
  | ok (f : Features)
deriving DecidableEq, Repr

/-- `FeatureExtractor.extract_features`, formula by formula. The
fall-through match arms are unreachable: sorting a nonempty side yields
a nonempty list. -/
def extract_features (st : BookState) (trades : List Trade)
    (last_trade_ts : Option ℤ) : ExtractResult :=
  if st.bids.isEmpty || st.asks.isEmpty then .unavailable
  else
    match sortDesc st.bids, sortAsc st.asks with
    | [], _ => .unavailable
    | _ :: _, [] => .unavailable
    | (best_bid_price, best_bid_size) :: _, (best_ask_price, best_ask_size) :: _ =>
      let spread := best_ask_price - best_bid_price
      let mid_price := (best_ask_price + best_bid_price) / 2
      if best_bid_size + best_ask_size = 0 then .zeroDivisionError
      else
        let wap := (best_bid_price * best_ask_size + best_ask_price * best_bid_size)
          / (best_bid_size + best_ask_size)
        let bid_depth := sumSizes ((sortDesc st.bids).take 5)
        let ask_depth := sumSizes ((sortAsc st.asks).take 5)
        let book_imbalance :=
          if 0 < bid_depth + ask_depth then (bid_depth - ask_depth) / (bid_depth + ask_depth)
          else 0
        let buy_volume := tradeVolume trades "buy"
        let sell_volume := tradeVolume trades "sell"
        let total_volume := buy_volume + sell_volume
        let trade_imbalance :=
          if 0 < total_volume then (buy_volume - sell_volume) / total_volume else 0
        .ok ⟨best_bid_price, best_ask_price, spread, mid_price, wap,
          book_imbalance, trade_imbalance, st.last_update_ts, last_trade_ts⟩

/-! ### Signal classification (`PredictionSimulator.get_prediction`) -/

/-- The feature dict as `get_prediction` reads it:
`features.get('book_imbalance_5_levels')` yields `None` when the key is
absent. -/
structure FeatDict where
  book_imbalance_5_levels : Option ℚ
deriving DecidableEq, Repr

/-- The dict handed to the classifier by the processing loop. -/
def Features.toDict (f : Features) : FeatDict := ⟨some f.book_imbalance_5_levels⟩

/-- `PredictionSimulator.get_prediction` with the configured
`imbalance_threshold` (constructor default 0.2). -/
def get_prediction (imbalance_threshold : ℚ) (features : Option FeatDict) : String :=
  match features with
  | none => "HOLD"
  | some f =>
    match f.book_imbalance_5_levels with
    | none => "HOLD"
    | some book_imbalance =>
      if book_imbalance > imbalance_threshold then "BUY"
      else if book_imbalance < -imbalance_threshold then "SELL"
      else "HOLD"

/-! ### Broadcast (`GemBotCore.broadcast_to_strategists`) -/

/-- The error a strategist's `websocket.send` raises. -/
inductive NetErr where
  | connectionClosed
deriving DecidableEq, Repr

/-- A strategist connection handle: identity plus whether its connection
is already closed. -/
structure Strategist where
  id : ℕ
  closed : Bool
deriving DecidableEq, Repr

/-- `client.send(message)`: fails exactly when the connection is closed. -/
def sendTo (c : Strategist) : Except NetErr Unit :=
  if c.closed then .error .connectionClosed else .ok ()

/-- `asyncio.gather` without `return_exceptions`: the first raised
exception propagates to the awaiter of the gather. -/
def gatherFirstErr : List (Except NetErr Unit) → Option NetErr
  | [] => none
  | .ok _ :: rest => gatherFirstErr rest
  | .error e :: _ => some e

/-- `GemBotCore.broadcast_to_strategists`: early return on an empty set,
otherwise gather one send per client. All gathered sends run to
completion (gather does not cancel siblings on failure), so the first
component collects the clients whose send succeeded, the second the
exception the call re-raises, if any. -/
def broadcast_to_strategists (clients : List Strategist) (message : String) :
    List ℕ × Option NetErr :=
  if clients.isEmpty then ([], none)
  else
    let results := clients.map (fun c => (c.id, sendTo c))
    ((results.filter (fun r => r.2.toBool)).map Prod.fst,
     gatherFirstErr (results.map Prod.snd))

/-! ### Concrete inputs used for witnesses and counterexamples -/

/-- The spec's §8 scenario snapshot: bids 100→2, 99→1; asks 101→1, 102→3. -/
def scenarioFrame : RawFrame :=
  ⟨some "snapshot",
   some [(.numeric 100, .numeric 2), (.numeric 99, .numeric 1)],
   some [(.numeric 101, .numeric 1), (.numeric 102, .numeric 3)],
   some 9⟩

/-- A well-formed snapshot frame carrying a size-0 bid and a
negative-size ask. -/
def nonposSnapshotFrame : RawFrame :=
  ⟨some "snapshot",
   some [(.numeric 100, .numeric 0)],
   some [(.numeric 101, .numeric (-1))],
   some 3⟩

/-- A size-disciplined snapshot followed by a size-disciplined update
(one delete, one insert). -/
def disciplinedFrames : List RawFrame :=
  [⟨some "snapshot",
    some [(.numeric 100, .numeric 2), (.numeric 99, .numeric 1)],
    some [(.numeric 101, .numeric 1)],
    some 1⟩,
   ⟨some "update",
    some [(.numeric 99, .numeric 0)],
    some [(.numeric 102, .numeric 5)],
    some 2⟩]

/-! ## Helper lemmas about the dict model -/

/-- The key list of a dict, in storage order. -/
def keys (d : Dict) : List ℚ := d.map Prod.fst

/-- A well-formed dict: no duplicate price keys. -/
def keysNodup (d : Dict) : Prop := (keys d).Nodup

/-- Every stored size is strictly positive. -/
def sizesPos (d : Dict) : Prop := ∀ kv ∈ d, 0 < kv.2

theorem mem_dictInsert {x : ℚ × ℚ} {d : Dict} {p v : ℚ} (h : x ∈ dictInsert d p v) :
    x = (p, v) ∨ x ∈ d := by
  induction d with
  | nil => simpa [dictInsert] using h
  | cons kv rest ih =>
    by_cases hk : kv.1 = p
    · simp only [dictInsert, if_pos hk, List.mem_cons] at h
      rcases h with h | h
      · exact Or.inl h
      · exact Or.inr (List.mem_cons_of_mem _ h)
    · simp only [dictInsert, if_neg hk, List.mem_cons] at h
      rcases h with h | h
      · exact Or.inr (by simp [h])
      · rcases ih h with h' | h'
        · exact Or.inl h'
        · exact Or.inr (List.mem_cons_of_mem _ h')

theorem keys_dictInsert_subset {q : ℚ} {d : Dict} {p v : ℚ}
    (h : q ∈ keys (dictInsert d p v)) : q = p ∨ q ∈ keys d := by
  simp only [keys, List.mem_map] at h
  obtain ⟨x, hx, hq⟩ := h
  rcases mem_dictInsert hx with h' | h'
  · left; rw [← hq, h']
  · right; exact List.mem_map.2 ⟨x, h', hq⟩

theorem keys_subset_dictInsert {q : ℚ} {d : Dict} {p v : ℚ}
    (h : q ∈ keys d) : q ∈ keys (dictInsert d p v) := by
  induction d with
  | nil => simp [keys] at h
  | cons kv rest ih =>
    simp only [keys, List.map_cons, List.mem_cons] at h
    by_cases hk : kv.1 = p
    · simp only [dictInsert, if_pos hk, keys, List.map_cons, List.mem_cons]
      rcases h with h | h
      · left; rw [h, hk]
      · right; exact h
    · simp only [dictInsert, if_neg hk, keys, List.map_cons, List.mem_cons]
      rcases h with h | h
      · left; exact h
      · right; exact ih h

theorem keysNodup_dictInsert {d : Dict} {p v : ℚ} (h : keysNodup d) :
    keysNodup (dictInsert d p v) := by
  induction d with
  | nil => simp [keysNodup, keys, dictInsert]
  | cons kv rest ih =>
    simp only [keysNodup, keys, List.map_cons, List.nodup_cons] at h
    by_cases hk : kv.1 = p
    · simp only [keysNodup, keys, dictInsert, if_pos hk, List.map_cons, List.nodup_cons]
      exact ⟨by rw [← hk]; exact h.1, h.2⟩
    · simp only [keysNodup, keys, dictInsert, if_neg hk, List.map_cons, List.nodup_cons]
      refine ⟨fun hc => ?_, ih h.2⟩
      rcases keys_dictInsert_subset hc with h' | h'
      · exact hk h'
      · exact h.1 h'

theorem dictInsert_ne_nil (d : Dict) (p v : ℚ) : dictInsert d p v ≠ [] := by
  cases d with
  | nil => simp [dictInsert]
  | cons kv rest =>
    by_cases hk : kv.1 = p
    · simp [dictInsert, hk]
    · simp [dictInsert, hk]

theorem dictErase_sublist (d : Dict) (p : ℚ) : List.Sublist (dictErase d p) d := by
  induction d with
  | nil => simp [dictErase]
  | cons kv rest ih =>
    by_cases hk : kv.1 = p
    · simpa only [dictErase, if_pos hk] using ih.cons kv
    · simpa only [dictErase, if_neg hk] using ih.cons₂ kv

theorem mem_dictErase {x : ℚ × ℚ} {d : Dict} {p : ℚ} (h : x ∈ dictErase d p) : x ∈ d :=
  (dictErase_sublist d p).mem h

theorem keysNodup_dictErase {d : Dict} {p : ℚ} (h : keysNodup d) :
    keysNodup (dictErase d p) :=
  ((dictErase_sublist d p).map Prod.fst).nodup h

theorem dlookup_dictInsert_self (d : Dict) (p v : ℚ) :
    dlookup (dictInsert d p v) p = some v := by
  induction d with
  | nil => simp [dictInsert, dlookup]
  | cons kv rest ih =>
    by_cases hk : kv.1 = p
    · simp [dictInsert, hk, dlookup]
    · simp [dictInsert, hk, dlookup, ih]

theorem dlookup_dictInsert_ne {q : ℚ} (d : Dict) {p : ℚ} (v : ℚ) (h : q ≠ p) :
    dlookup (dictInsert d p v) q = dlookup d q := by
  induction d with
  | nil => simp [dictInsert, dlookup, Ne.symm h]
  | cons kv rest ih =>
    by_cases hk : kv.1 = p
    · simp only [dictInsert, if_pos hk, dlookup]
      rw [if_neg (fun hc => h hc.symm), if_neg (by rw [hk]; exact fun hc => h hc.symm)]
    · simp only [dictInsert, if_neg hk, dlookup]
      by_cases hq : kv.1 = q
      · simp [hq]
      · simp [hq, ih]

theorem dlookup_dictErase_self (d : Dict) (p : ℚ) :
    dlookup (dictErase d p) p = none := by
  induction d with
  | nil => simp [dictErase, dlookup]
  | cons kv rest ih =>
    by_cases hk : kv.1 = p
    · simpa [dictErase, hk] using ih
    · simp [dictErase, hk, dlookup, ih]

theorem dlookup_dictErase_ne {q : ℚ} (d : Dict) {p : ℚ} (h : q ≠ p) :
    dlookup (dictErase d p) q = dlookup d q := by
  induction d with
  | nil => simp [dictErase]
  | cons kv rest ih =>
    by_cases hk : kv.1 = p
    · rw [dictErase, if_pos hk, ih, dlookup, if_neg (by rw [hk]; exact fun hc => h hc.symm)]
    · by_cases hq : kv.1 = q
      · simp [dictErase, hk, dlookup, hq, h]
      · simp [dictErase, hk, dlookup, hq, ih]

theorem mem_dictOfListAux {x : ℚ × ℚ} {d : Dict} {l : List (ℚ × ℚ)}
    (h : x ∈ dictOfListAux d l) : x ∈ d ∨ x ∈ l := by
  induction l generalizing d with
  | nil => exact Or.inl (by simpa [dictOfListAux] using h)
  | cons pv rest ih =>
    rcases ih (by simpa [dictOfListAux] using h) with h' | h'
    · rcases mem_dictInsert h' with h'' | h''
      · right; simp [h'']
      · left; exact h''
    · right; exact List.mem_cons_of_mem _ h'

theorem keysNodup_dictOfListAux {d : Dict} {l : List (ℚ × ℚ)} (h : keysNodup d) :
    keysNodup (dictOfListAux d l) := by
  induction l generalizing d with
  | nil => simpa [dictOfListAux] using h
  | cons pv rest ih => exact ih (keysNodup_dictInsert h)

theorem keys_subset_dictOfListAux {q : ℚ} {d : Dict} (l : List (ℚ × ℚ))
    (h : q ∈ keys d) : q ∈ keys (dictOfListAux d l) := by
  induction l generalizing d with
  | nil => simpa [dictOfListAux] using h
  | cons pv rest ih => exact ih (keys_subset_dictInsert h)

theorem mem_keys_dictInsert (d : Dict) (p v : ℚ) : p ∈ keys (dictInsert d p v) := by
  induction d with
  | nil => simp [dictInsert, keys]
  | cons kv rest ih =>
    by_cases hk : kv.1 = p
    · simp [dictInsert, hk, keys]
    · simp only [dictInsert, if_neg hk, keys, List.map_cons, List.mem_cons]
      right; exact ih

theorem mem_keys_dictOfListAux {x : ℚ × ℚ} {d : Dict} {l : List (ℚ × ℚ)}
    (h : x ∈ l) : x.1 ∈ keys (dictOfListAux d l) := by
  induction l generalizing d with
  | nil => simp at h
  | cons pv rest ih =>
    rcases List.mem_cons.1 h with h' | h'
    · subst h'
      exact keys_subset_dictOfListAux rest (mem_keys_dictInsert d x.1 x.2)
    · exact ih h'

theorem dictOfListAux_ne_nil {d : Dict} {l : List (ℚ × ℚ)} (h : d ≠ []) :
    dictOfListAux d l ≠ [] := by
  induction l generalizing d with
  | nil => simpa [dictOfListAux] using h
  | cons pv rest ih => exact ih (dictInsert_ne_nil d pv.1 pv.2)

theorem mem_dictOfList {x : ℚ × ℚ} {l : List (ℚ × ℚ)} (h : x ∈ dictOfList l) : x ∈ l := by
  rcases mem_dictOfListAux h with h' | h'
  · simp at h'
  · exact h'

theorem keysNodup_dictOfList (l : List (ℚ × ℚ)) : keysNodup (dictOfList l) :=
  keysNodup_dictOfListAux (by simp [keysNodup, keys])

theorem mem_keys_dictOfList {x : ℚ × ℚ} {l : List (ℚ × ℚ)} (h : x ∈ l) :
    x.1 ∈ keys (dictOfList l) :=
  mem_keys_dictOfListAux h

theorem dictOfList_ne_nil {l : List (ℚ × ℚ)} (h : l ≠ []) : dictOfList l ≠ [] := by
  cases l with
  | nil => exact absurd rfl h
  | cons pv rest =>
    show dictOfListAux (dictInsert [] pv.1 pv.2) rest ≠ []
    exact dictOfListAux_ne_nil (dictInsert_ne_nil [] pv.1 pv.2)

/-! ## Helper lemmas about sorting -/

theorem mem_insertDesc {a x : ℚ × ℚ} {l : List (ℚ × ℚ)} :
    a ∈ insertDesc x l ↔ a = x ∨ a ∈ l := by
  induction l with
  | nil => simp [insertDesc]
  | cons y ys ih =>
    by_cases hy : y.1 ≤ x.1
    · simp [insertDesc, hy]
    · simp only [insertDesc, if_neg hy, List.mem_cons, ih]
      tauto

theorem mem_sortDesc {a : ℚ × ℚ} {l : List (ℚ × ℚ)} : a ∈ sortDesc l ↔ a ∈ l := by
  induction l with
  | nil => simp [sortDesc]
  | cons x xs ih => simp [sortDesc, mem_insertDesc, ih]

theorem insertDesc_ne_nil (x : ℚ × ℚ) (l : List (ℚ × ℚ)) : insertDesc x l ≠ [] := by
  cases l with
  | nil => simp [insertDesc]
  | cons y ys =>
    by_cases hy : y.1 ≤ x.1
    · simp [insertDesc, hy]
    · simp [insertDesc, hy]

theorem sortDesc_eq_nil {l : List (ℚ × ℚ)} : sortDesc l = [] ↔ l = [] := by
  cases l with
  | nil => simp [sortDesc]
  | cons x xs =>
    simp only [sortDesc]
    exact ⟨fun h => absurd h (insertDesc_ne_nil _ _), fun h => by simp at h⟩

theorem sortDesc_head_max {l : List (ℚ × ℚ)} {b : ℚ × ℚ} {t : List (ℚ × ℚ)}
    (h : sortDesc l = b :: t) : b ∈ l ∧ ∀ a ∈ l, a.1 ≤ b.1 := by
  induction l generalizing b t with
  | nil => simp [sortDesc] at h
  | cons x xs ih =>
    rw [sortDesc] at h
    rcases hs : sortDesc xs with _ | ⟨y, ys⟩
    · rw [hs, insertDesc] at h
      obtain ⟨hb, -⟩ := List.cons.inj h
      subst hb
      have hxs : xs = [] := sortDesc_eq_nil.1 hs
      subst hxs
      exact ⟨List.mem_singleton_self x, by simp⟩
    · obtain ⟨hy, hmax⟩ := ih hs
      rw [hs, insertDesc] at h
      by_cases hc : y.1 ≤ x.1
      · rw [if_pos hc] at h
        obtain ⟨hb, -⟩ := List.cons.inj h
        subst hb
        refine ⟨List.mem_cons_self _ _, fun a ha => ?_⟩
        rcases List.mem_cons.1 ha with ha' | ha'
        · rw [ha']
        · exact le_trans (hmax a ha') hc
      · rw [if_neg hc] at h
        obtain ⟨hb, -⟩ := List.cons.inj h
        subst hb
        refine ⟨List.mem_cons_of_mem _ hy, fun a ha => ?_⟩
        rcases List.mem_cons.1 ha with ha' | ha'
        · rw [ha']; exact le_of_lt (lt_of_not_le hc)
        · exact hmax a ha'

theorem mem_insertAsc {a x : ℚ × ℚ} {l : List (ℚ × ℚ)} :
    a ∈ insertAsc x l ↔ a = x ∨ a ∈ l := by
  induction l with
  | nil => simp [insertAsc]
  | cons y ys ih =>
    by_cases hy : x.1 ≤ y.1
    · simp [insertAsc, hy]
    · simp only [insertAsc, if_neg hy, List.mem_cons, ih]
      tauto

theorem mem_sortAsc {a : ℚ × ℚ} {l : List (ℚ × ℚ)} : a ∈ sortAsc l ↔ a ∈ l := by
  induction l with
  | nil => simp [sortAsc]
  | cons x xs ih => simp [sortAsc, mem_insertAsc, ih]

theorem insertAsc_ne_nil (x : ℚ × ℚ) (l : List (ℚ × ℚ)) : insertAsc x l ≠ [] := by
  cases l with
  | nil => simp [insertAsc]
  | cons y ys =>
    by_cases hy : x.1 ≤ y.1
    · simp [insertAsc, hy]
    · simp [insertAsc, hy]

theorem sortAsc_eq_nil {l : List (ℚ × ℚ)} : sortAsc l = [] ↔ l = [] := by
  cases l with
  | nil => simp [sortAsc]
  | cons x xs =>
    simp only [sortAsc]
    exact ⟨fun h => absurd h (insertAsc_ne_nil _ _), fun h => by simp at h⟩

theorem sortAsc_head_min {l : List (ℚ × ℚ)} {b : ℚ × ℚ} {t : List (ℚ × ℚ)}
    (h : sortAsc l = b :: t) : b ∈ l ∧ ∀ a ∈ l, b.1 ≤ a.1 := by
  induction l generalizing b t with
  | nil => simp [sortAsc] at h
  | cons x xs ih =>
    rw [sortAsc] at h
    rcases hs : sortAsc xs with _ | ⟨y, ys⟩
    · rw [hs, insertAsc] at h
      obtain ⟨hb, -⟩ := List.cons.inj h
      subst hb
      have hxs : xs = [] := sortAsc_eq_nil.1 hs
      subst hxs
      exact ⟨List.mem_singleton_self x, by simp⟩
    · obtain ⟨hy, hmin⟩ := ih hs
      rw [hs, insertAsc] at h
      by_cases hc : x.1 ≤ y.1
      · rw [if_pos hc] at h
        obtain ⟨hb, -⟩ := List.cons.inj h
        subst hb
        refine ⟨List.mem_cons_self _ _, fun a ha => ?_⟩
        rcases List.mem_cons.1 ha with ha' | ha'
        · rw [ha']
        · exact le_trans hc (hmin a ha')
      · rw [if_neg hc] at h
        obtain ⟨hb, -⟩ := List.cons.inj h
        subst hb
        refine ⟨List.mem_cons_of_mem _ hy, fun a ha => ?_⟩
        rcases List.mem_cons.1 ha with ha' | ha'
        · rw [ha']; exact le_of_lt (lt_of_not_le hc)
        · exact hmin a ha'

/-! ## Invariant preservation -/

theorem sizesPos_dictInsert {d : Dict} {p v : ℚ} (hd : sizesPos d) (hv : 0 < v) :
    sizesPos (dictInsert d p v) := by
  intro kv hkv
  rcases mem_dictInsert hkv with h | h
  · rw [h]; exact hv
  · exact hd kv h

theorem sizesPos_dictErase {d : Dict} {p : ℚ} (hd : sizesPos d) :
    sizesPos (dictErase d p) := fun kv hkv => hd kv (mem_dictErase hkv)

theorem sizesPos_dictOfList {l : List (ℚ × ℚ)} (h : ∀ x ∈ l, 0 < x.2) :
    sizesPos (dictOfList l) := fun kv hkv => h kv (mem_dictOfList hkv)

theorem keysNodup_applyEntry {d : Dict} (p s : ℚ) (h : keysNodup d) :
    keysNodup (applyEntry d p s) := by
  unfold applyEntry
  split
  · split
    · exact keysNodup_dictErase h
    · exact h
  · exact keysNodup_dictInsert h

theorem sizesPos_applyEntry {d : Dict} {p s : ℚ} (hd : sizesPos d) (hs : 0 ≤ s) :
    sizesPos (applyEntry d p s) := by
  unfold applyEntry
  split
  · split
    · exact sizesPos_dictErase hd
    · exact hd
  · rename_i hz
    exact sizesPos_dictInsert hd (lt_of_le_of_ne hs (Ne.symm hz))

theorem keysNodup_applyEntries {d : Dict} {es : List RawEntry} (h : keysNodup d) :
    keysNodup (applyEntries d es).1 := by
  induction es generalizing d with
  | nil => simpa [applyEntries] using h
  | cons e rest ih =>
    unfold applyEntries
    cases hp : pyFloat e.1 with
    | none => exact h
    | some p =>
      cases hs : pyFloat e.2 with
      | none => exact h
      | some s => exact ih (keysNodup_applyEntry p s h)

theorem sizesPos_applyEntries {d : Dict} {es : List RawEntry} (hd : sizesPos d)
    (hs : ∀ e ∈ es, ∀ q, pyFloat e.2 = some q → 0 ≤ q) :
    sizesPos (applyEntries d es).1 := by
  induction es generalizing d with
  | nil => simpa [applyEntries] using hd
  | cons e rest ih =>
    unfold applyEntries
    cases hp : pyFloat e.1 with
    | none => exact hd
    | some p =>
      cases hq : pyFloat e.2 with
      | none => exact hd
      | some s =>
        exact ih (sizesPos_applyEntry hd (hs e (List.mem_cons_self _ _) s hq))
          (fun e' he' => hs e' (List.mem_cons_of_mem _ he'))

/-- Whole-state well-formedness: both sides are duplicate-free and all
stored sizes are strictly positive. -/
def bookInv (st : BookState) : Prop :=
  keysNodup st.bids ∧ keysNodup st.asks ∧ sizesPos st.bids ∧ sizesPos st.asks

/-- Size check for one snapshot side: all parsed sizes strictly positive
(a side that fails to parse is never installed, so it passes). -/
def sideSnapshotOkB : Option (List RawEntry) → Bool
  | none => true
  | some raw =>
    match parseSide raw with
    | none => true
    | some pb => pb.all (fun x => decide (0 < x.2))

/-- Size check for one update entry: if its size parses, it is nonnegative. -/
def entryUpdateOkB (e : RawEntry) : Bool :=
  match pyFloat e.2 with
  | none => true
  | some q => decide (0 ≤ q)

def sideUpdateOkB : Option (List RawEntry) → Bool
  | none => true
  | some raw => raw.all entryUpdateOkB

/-- Size discipline of a frame: a snapshot carries only strictly
positive sizes, an update only nonnegative sizes. -/
def frameSizesOkB (f : RawFrame) : Bool :=
  match f.action with
  | none => true
  | some a =>
    if a = "snapshot" then sideSnapshotOkB f.bids && sideSnapshotOkB f.asks
    else if a = "update" then sideUpdateOkB f.bids && sideUpdateOkB f.asks
    else true

abbrev frameSizesOk (f : RawFrame) : Prop := frameSizesOkB f = true

theorem frameSizesOk_snapshot {f : RawFrame} {raw : List RawEntry} {pb : List (ℚ × ℚ)}
    (hok : frameSizesOk f) (ha : f.action = some "snapshot")
    (hraw : f.bids = some raw ∨ f.asks = some raw) (hp : parseSide raw = some pb) :
    ∀ x ∈ pb, 0 < x.2 := by
  unfold frameSizesOk frameSizesOkB at hok
  rw [ha] at hok
  dsimp only at hok
  rw [if_pos rfl, Bool.and_eq_true] at hok
  have hside : sideSnapshotOkB (some raw) = true := by
    rcases hraw with h | h
    · rw [← h]; exact hok.1
    · rw [← h]; exact hok.2
  unfold sideSnapshotOkB at hside
  dsimp only at hside
  rw [hp] at hside
  intro x hx
  simpa using List.all_eq_true.1 hside x hx

theorem frameSizesOk_update {f : RawFrame} {raw : List RawEntry}
    (hok : frameSizesOk f) (ha : f.action = some "update")
    (hraw : f.bids = some raw ∨ f.asks = some raw) :
    ∀ e ∈ raw, ∀ q, pyFloat e.2 = some q → 0 ≤ q := by
  unfold frameSizesOk frameSizesOkB at hok
  rw [ha] at hok
  dsimp only at hok
  rw [if_neg (by decide), if_pos rfl, Bool.and_eq_true] at hok
  have hside : sideUpdateOkB (some raw) = true := by
    rcases hraw with h | h
    · rw [← h]; exact hok.1
    · rw [← h]; exact hok.2
  unfold sideUpdateOkB at hside
  dsimp only at hside
  intro e he q hq
  have := List.all_eq_true.1 hside e he
  unfold entryUpdateOkB at this
  rw [hq] at this
  simpa using this

theorem setTs_fst_bids (st : BookState) (ts : Option ℤ) : (setTs st ts).1.bids = st.bids := by
  cases ts <;> rfl

theorem setTs_fst_asks (st : BookState) (ts : Option ℤ) : (setTs st ts).1.asks = st.asks := by
  cases ts <;> rfl

theorem bookInv_update {st : BookState} {f : RawFrame}
    (hinv : bookInv st) (hok : frameSizesOk f) :
    bookInv (update_order_book st f).1 := by
  obtain ⟨hnb, hna, hpb, hpa⟩ := hinv
  unfold update_order_book
  cases hact : f.action with
  | none => exact ⟨hnb, hna, hpb, hpa⟩
  | some a =>
    dsimp only
    by_cases hsnap : a = "snapshot"
    · subst hsnap
      rw [if_pos rfl]
      cases hbids : f.bids with
      | none => exact ⟨hnb, hna, hpb, hpa⟩
      | some rawBids =>
        dsimp only
        cases hparb : parseSide rawBids with
        | none => exact ⟨hnb, hna, hpb, hpa⟩
        | some pb =>
          dsimp only
          have hposb : sizesPos (dictOfList pb) :=
            sizesPos_dictOfList (frameSizesOk_snapshot hok hact (Or.inl hbids) hparb)
          cases hasks : f.asks with
          | none => exact ⟨keysNodup_dictOfList pb, hna, hposb, hpa⟩
          | some rawAsks =>
            dsimp only
            cases hpara : parseSide rawAsks with
            | none => exact ⟨keysNodup_dictOfList pb, hna, hposb, hpa⟩
            | some pa =>
              dsimp only
              have hposa : sizesPos (dictOfList pa) :=
                sizesPos_dictOfList (frameSizesOk_snapshot hok hact (Or.inr hasks) hpara)
              refine ⟨?_, ?_, ?_, ?_⟩
              · rw [setTs_fst_bids]; exact keysNodup_dictOfList pb
              · rw [setTs_fst_asks]; exact keysNodup_dictOfList pa
              · rw [setTs_fst_bids]; exact hposb
              · rw [setTs_fst_asks]; exact hposa
    · rw [if_neg hsnap]
      by_cases hupd : a = "update"
      · subst hupd
        rw [if_pos rfl]
        cases hbids : f.bids with
        | none => exact ⟨hnb, hna, hpb, hpa⟩
        | some rawBids =>
          dsimp only
          have hnb' : keysNodup (applyEntries st.bids rawBids).1 :=
            keysNodup_applyEntries hnb
          have hpb' : sizesPos (applyEntries st.bids rawBids).1 :=
            sizesPos_applyEntries hpb
              (frameSizesOk_update hok hact (Or.inl hbids))
          rcases happ : applyEntries st.bids rawBids with ⟨newBids, err⟩
          rw [happ] at hnb' hpb'
          cases err with
          | some e => exact ⟨hnb', hna, hpb', hpa⟩
          | none =>
            dsimp only
            cases hasks : f.asks with
            | none => exact ⟨hnb', hna, hpb', hpa⟩
            | some rawAsks =>
              dsimp only
              have hna' : keysNodup (applyEntries st.asks rawAsks).1 :=
                keysNodup_applyEntries hna
              have hpa' : sizesPos (applyEntries st.asks rawAsks).1 :=
                sizesPos_applyEntries hpa
                  (frameSizesOk_update hok hact (Or.inr hasks))
              rcases happ2 : applyEntries st.asks rawAsks with ⟨newAsks, err2⟩
              rw [happ2] at hna' hpa'
              cases err2 with
              | some e => exact ⟨hnb', hna', hpb', hpa'⟩
              | none =>
                refine ⟨?_, ?_, ?_, ?_⟩
                · rw [setTs_fst_bids]; exact hnb'
                · rw [setTs_fst_asks]; exact hna'
                · rw [setTs_fst_bids]; exact hpb'
                · rw [setTs_fst_asks]; exact hpa'
      · rw [if_neg hupd]
        refine ⟨?_, ?_, ?_, ?_⟩
        · rw [setTs_fst_bids]; exact hnb
        · rw [setTs_fst_asks]; exact hna
        · rw [setTs_fst_bids]; exact hpb
        · rw [setTs_fst_asks]; exact hpa

theorem bookInv_applyFrames {st : BookState} {fs : List RawFrame}
    (hinv : bookInv st) (hok : ∀ f ∈ fs, frameSizesOk f) :
    bookInv (applyFrames st fs) := by
  induction fs generalizing st with
  | nil => simpa [applyFrames] using hinv
  | cons f rest ih =>
    exact ih (bookInv_update hinv (hok f (List.mem_cons_self _ _)))
      (fun f' hf' => hok f' (List.mem_cons_of_mem _ hf'))

/-- Key uniqueness alone: both sides duplicate-free. Unlike `bookInv`,
this is preserved by every frame, with no size discipline — dict
semantics cannot create a duplicate key. -/
def nodupInv (st : BookState) : Prop := keysNodup st.bids ∧ keysNodup st.asks

theorem nodupInv_update {st : BookState} (f : RawFrame) (hinv : nodupInv st) :
    nodupInv (update_order_book st f).1 := by
  obtain ⟨hnb, hna⟩ := hinv
  unfold update_order_book
  cases hact : f.action with
  | none => exact ⟨hnb, hna⟩
  | some a =>
    dsimp only
    by_cases hsnap : a = "snapshot"
    · subst hsnap
      rw [if_pos rfl]
      cases hbids : f.bids with
      | none => exact ⟨hnb, hna⟩
      | some rawBids =>
        dsimp only
        cases hparb : parseSide rawBids with
        | none => exact ⟨hnb, hna⟩
        | some pb =>
          dsimp only
          cases hasks : f.asks with
          | none => exact ⟨keysNodup_dictOfList pb, hna⟩
          | some rawAsks =>
            dsimp only
            cases hpara : parseSide rawAsks with
            | none => exact ⟨keysNodup_dictOfList pb, hna⟩
            | some pa =>
              dsimp only
              refine ⟨?_, ?_⟩
              · rw [setTs_fst_bids]; exact keysNodup_dictOfList pb
              · rw [setTs_fst_asks]; exact keysNodup_dictOfList pa
    · rw [if_neg hsnap]
      by_cases hupd : a = "update"
      · subst hupd
        rw [if_pos rfl]
        cases hbids : f.bids with
        | none => exact ⟨hnb, hna⟩
        | some rawBids =>
          dsimp only
          have hnb' : keysNodup (applyEntries st.bids rawBids).1 :=
            keysNodup_applyEntries hnb
          rcases happ : applyEntries st.bids rawBids with ⟨newBids, err⟩
          rw [happ] at hnb'
          cases err with
          | some e => exact ⟨hnb', hna⟩
          | none =>
            dsimp only
            cases hasks : f.asks with
            | none => exact ⟨hnb', hna⟩
            | some rawAsks =>
              dsimp only
              have hna' : keysNodup (applyEntries st.asks rawAsks).1 :=
                keysNodup_applyEntries hna
              rcases happ2 : applyEntries st.asks rawAsks with ⟨newAsks, err2⟩
              rw [happ2] at hna'
              cases err2 with
              | some e => exact ⟨hnb', hna'⟩
              | none =>
                refine ⟨?_, ?_⟩
                · rw [setTs_fst_bids]; exact hnb'
                · rw [setTs_fst_asks]; exact hna'
      · rw [if_neg hupd]
        refine ⟨?_, ?_⟩
        · rw [setTs_fst_bids]; exact hnb
        · rw [setTs_fst_asks]; exact hna

theorem nodupInv_applyFrames {st : BookState} (fs : List RawFrame)
    (hinv : nodupInv st) : nodupInv (applyFrames st fs) := by
  induction fs generalizing st with
  | nil => simpa [applyFrames] using hinv
  | cons f rest ih => exact ih (nodupInv_update f hinv)

/-! ## Characterizing feature extraction -/

/-- The best-5 bid depth computed at line `bid_depth = sum(... sorted_bids[:5])`. -/
def bidDepth5 (st : BookState) : ℚ := sumSizes ((sortDesc st.bids).take 5)

/-- The best-5 ask depth computed at line `ask_depth = sum(... sorted_asks[:5])`. -/
def askDepth5 (st : BookState) : ℚ := sumSizes ((sortAsc st.asks).take 5)

theorem extract_features_eq {st : BookState} {trades : List Trade} {ltt : Option ℤ}
    {bbp bbs bap bas : ℚ} {tb ta : List (ℚ × ℚ)}
    (hb : sortDesc st.bids = (bbp, bbs) :: tb)
    (ha : sortAsc st.asks = (bap, bas) :: ta) :
    extract_features st trades ltt =
      if bbs + bas = 0 then .zeroDivisionError
      else
        .ok ⟨bbp, bap, bap - bbp, (bap + bbp) / 2,
          (bbp * bas + bap * bbs) / (bbs + bas),
          (if 0 < bidDepth5 st + askDepth5 st
           then (bidDepth5 st - askDepth5 st) / (bidDepth5 st + askDepth5 st)
           else 0),
          (if 0 < tradeVolume trades "buy" + tradeVolume trades "sell"
           then (tradeVolume trades "buy" - tradeVolume trades "sell") /
             (tradeVolume trades "buy" + tradeVolume trades "sell")
           else 0),
          st.last_update_ts, ltt⟩ := by
  have hbne : st.bids ≠ [] := fun h => by rw [h] at hb; simp [sortDesc] at hb
  have hane : st.asks ≠ [] := fun h => by rw [h] at ha; simp [sortAsc] at ha
  unfold extract_features
  rw [if_neg (by simp [List.isEmpty_iff, hbne, hane])]
  rw [hb, ha]
  dsimp only
  rw [bidDepth5, askDepth5, hb, ha]

/-! ## Characterizing snapshot application and broadcast -/

theorem snapshot_apply {st : BookState} {f : RawFrame} {rawBids rawAsks : List RawEntry}
    {pb pa : List (ℚ × ℚ)} {t : ℤ}
    (ha : f.action = some "snapshot") (hb : f.bids = some rawBids)
    (hk : f.asks = some rawAsks) (hpb : parseSide rawBids = some pb)
    (hpa : parseSide rawAsks = some pa) (ht : f.ts = some t) :
    update_order_book st f = (⟨dictOfList pb, dictOfList pa, some t⟩, none) := by
  unfold update_order_book
  rw [ha]
  dsimp only
  rw [if_pos rfl, hb]
  dsimp only
  rw [hpb]
  dsimp only
  rw [hk]
  dsimp only
  rw [hpa]
  dsimp only
  unfold setTs
  rw [ht]

theorem broadcast_results_delivered (clients : List Strategist) :
    (((clients.map (fun c => (c.id, sendTo c))).filter (fun r => r.2.toBool)).map Prod.fst)
      = (clients.filter (fun c => !c.closed)).map Strategist.id := by
  induction clients with
  | nil => simp
  | cons c rest ih =>
    by_cases hc : c.closed
    · simp only [List.map_cons, List.filter_cons]
      rw [show (sendTo c).toBool = false by simp [sendTo, hc, Except.toBool]]
      rw [show (!c.closed) = false by simp [hc]]
      simpa using ih
    · simp only [List.map_cons, List.filter_cons]
      rw [show (sendTo c).toBool = true by simp [sendTo, hc, Except.toBool]]
      rw [show (!c.closed) = true by simp [hc]]
      simpa using ih

theorem broadcast_gather_none (clients : List Strategist) :
    gatherFirstErr (clients.map (fun c => sendTo c)) = none ↔
      ∀ c ∈ clients, c.closed = false := by
  induction clients with
  | nil => simp [gatherFirstErr]
  | cons c rest ih =>
    by_cases hc : c.closed
    · rw [List.map_cons, show sendTo c = Except.error .connectionClosed by simp [sendTo, hc]]
      simp [gatherFirstErr, hc]
    · rw [List.map_cons, show sendTo c = Except.ok () by simp [sendTo, hc]]
      rw [show gatherFirstErr (Except.ok () :: rest.map (fun c => sendTo c)) =
        gatherFirstErr (rest.map (fun c => sendTo c)) from rfl]
      rw [ih]
      constructor
      · intro h x hx
        rcases List.mem_cons.1 hx with h' | h'
        · rw [h']; simpa using hc
        · exact h x h'
      · intro h x hx
        exact h x (List.mem_cons_of_mem _ hx)

/-! ## Claim C1 — weighted average price -/

/-- Claim C1, counterexample to the claimed midPrice fallback: a
snapshot installs zero-size best levels without complaint, and feature
extraction on the resulting book raises ZeroDivisionError instead of
falling back to midPrice. -/
theorem C1_counterexample :
    extract_features
      (applyFrames initState
        [⟨some "snapshot", some [(.numeric 100, .numeric 0)],
          some [(.numeric 101, .numeric 0)], some 1⟩]) [] none
      = .zeroDivisionError := by
  have hst : applyFrames initState
      [⟨some "snapshot", some [(.numeric 100, .numeric 0)],
        some [(.numeric 101, .numeric 0)], some 1⟩]
      = (⟨[(100, 0)], [(101, 0)], some 1⟩ : BookState) := by rfl
  rw [hst]
  rw [extract_features_eq (show sortDesc [((100 : ℚ), (0 : ℚ))] = [(100, 0)] from rfl)
    (show sortAsc [((101 : ℚ), (0 : ℚ))] = [(101, 0)] from rfl)]
  rw [if_pos (by norm_num)]

/-- Claim C1 (amended): for every book state whose best bid and best ask
exist, feature extraction computes weightedAveragePrice =
(bestBid.price * bestAsk.size + bestAsk.price * bestBid.size) /
(bestBid.size + bestAsk.size) whenever bestBid.size + bestAsk.size ≠ 0,
and exactly when bestBid.size + bestAsk.size = 0 it raises
ZeroDivisionError — there is no fallback to midPrice. -/
theorem C1_wap_formula_and_zero_denominator (st : BookState) (trades : List Trade)
    (ltt : Option ℤ) (bb ba : ℚ × ℚ)
    (hb : bestBid st = some bb) (ha : bestAsk st = some ba) :
    (bb.2 + ba.2 = 0 → extract_features st trades ltt = .zeroDivisionError) ∧
    (bb.2 + ba.2 ≠ 0 → ∃ f : Features, extract_features st trades ltt = .ok f ∧
      f.wap = (bb.1 * ba.2 + ba.1 * bb.2) / (bb.2 + ba.2) ∧
      f.mid_price = (ba.1 + bb.1) / 2) := by
  cases hsb : sortDesc st.bids with
  | nil => rw [bestBid, hsb] at hb; simp at hb
  | cons b tb =>
    cases hsa : sortAsc st.asks with
    | nil => rw [bestAsk, hsa] at ha; simp at ha
    | cons a ta =>
      rw [bestBid, hsb] at hb
      rw [bestAsk, hsa] at ha
      have hbb : b = bb := by simpa using hb
      have hba : a = ba := by simpa using ha
      subst hbb hba
      have heq := @extract_features_eq st trades ltt b.1 b.2 a.1 a.2 tb ta hsb hsa
      rw [heq]
      constructor
      · intro hz
        rw [if_pos hz]
      · intro hz
        rw [if_neg hz]
        exact ⟨_, rfl, rfl, rfl⟩

/-- Claim C1 witness: the spec's own scenario book (bids 100→2,
asks 101→1) has WAP (100·1 + 101·2)/3 and midPrice 100.5. -/
theorem C1_witness :
    (2 : ℚ) + 1 ≠ 0 ∧
    (∃ f : Features, extract_features ⟨[(100, 2)], [(101, 1)], some 5⟩ [] none = .ok f ∧
      f.wap = (100 * 1 + 101 * 2) / (2 + 1) ∧
      f.mid_price = (101 + 100) / 2) :=
  ⟨by norm_num,
   (C1_wap_formula_and_zero_denominator ⟨[(100, 2)], [(101, 1)], some 5⟩ [] none
      (100, 2) (101, 1) (by rfl) (by rfl)).2 (by norm_num)⟩

/-! ## Claim C2 — snapshot entries with size ≤ 0 -/

/-- Claim C2, counterexample: a snapshot with a size-0 bid entry is not
rejected — no error is reported and the entry is installed. -/
theorem C2_counterexample :
    update_order_book initState
      ⟨some "snapshot", some [(.numeric 100, .numeric 0)],
        some [(.numeric 101, .numeric 1)], some 5⟩
      = (⟨[(100, 0)], [(101, 1)], some 5⟩, none) := by rfl

/-- Claim C2 (amended): a structurally well-formed snapshot frame is
never rejected, whatever its entry sizes: application reports no error
and the price of every parsed entry — size ≤ 0 included — is installed
on its side of the book. -/
theorem C2_snapshot_sizes_not_validated (st : BookState) (f : RawFrame)
    (rawBids rawAsks : List RawEntry) (pb pa : List (ℚ × ℚ)) (t : ℤ)
    (ha : f.action = some "snapshot") (hb : f.bids = some rawBids)
    (hk : f.asks = some rawAsks) (hpb : parseSide rawBids = some pb)
    (hpa : parseSide rawAsks = some pa) (ht : f.ts = some t) :
    (update_order_book st f).2 = none ∧
    (∀ x ∈ pb, x.1 ∈ keys (update_order_book st f).1.bids) ∧
    (∀ x ∈ pa, x.1 ∈ keys (update_order_book st f).1.asks) := by
  rw [snapshot_apply ha hb hk hpb hpa ht]
  exact ⟨rfl, fun x hx => mem_keys_dictOfList hx, fun x hx => mem_keys_dictOfList hx⟩

/-- Claim C2 witness: the zero-size bid and negative-size ask of
`nonposSnapshotFrame` are accepted and installed. -/
theorem C2_witness :
    (update_order_book initState nonposSnapshotFrame).2 = none ∧
    (100 : ℚ) ∈ keys (update_order_book initState nonposSnapshotFrame).1.bids ∧
    (101 : ℚ) ∈ keys (update_order_book initState nonposSnapshotFrame).1.asks := by
  have h := C2_snapshot_sizes_not_validated initState nonposSnapshotFrame
    [(.numeric 100, .numeric 0)] [(.numeric 101, .numeric (-1))]
    [(100, 0)] [(101, -1)] 3 rfl rfl rfl (by rfl) (by rfl) rfl
  exact ⟨h.1, by simpa using h.2.1 (100, 0) (by simp),
    by simpa using h.2.2 (101, -1) (by simp)⟩

/-! ## Claim C3 — all-or-nothing frame application -/

/-- Claim C3, counterexample: a snapshot whose bids are valid but whose
ask side holds a non-numeric size is rejected with an error, yet the bid
side has already been replaced — application is not all-or-nothing. -/
theorem C3_counterexample :
    update_order_book ⟨[(1, 2)], [(3, 4)], some 0⟩
      ⟨some "snapshot", some [(.numeric 10, .numeric 5)],
        some [(.numeric 11, .malformed)], some 7⟩
      = (⟨[(10, 5)], [(3, 4)], some 0⟩, some .valueError) := by rfl

/-- Claim C3 (amended): a malformed frame is rejected with an error, but
application is not all-or-nothing: for every prior state, a snapshot
frame whose bid side parses and whose ask side fails to parse leaves the
new bids installed while the asks and the timestamp keep their prior
values. -/
theorem C3_partial_snapshot (st : BookState) (f : RawFrame)
    (rawBids rawAsks : List RawEntry) (pb : List (ℚ × ℚ))
    (ha : f.action = some "snapshot") (hb : f.bids = some rawBids)
    (hk : f.asks = some rawAsks) (hpb : parseSide rawBids = some pb)
    (hpa : parseSide rawAsks = none) :
    update_order_book st f
      = (⟨dictOfList pb, st.asks, st.last_update_ts⟩, some .valueError) := by
  unfold update_order_book
  rw [ha]
  dsimp only
  rw [if_pos rfl, hb]
  dsimp only
  rw [hpb]
  dsimp only
  rw [hk]
  dsimp only
  rw [hpa]

/-- Claim C3 witness: a concrete half-applied snapshot. -/
theorem C3_witness :
    update_order_book ⟨[(50, 1)], [(60, 1)], some 4⟩
      ⟨some "snapshot", some [(.numeric 55, .numeric 2)],
        some [(.malformed, .numeric 1)], some 8⟩
      = (⟨[(55, 2)], [(60, 1)], some 4⟩, some .valueError) :=
  C3_partial_snapshot ⟨[(50, 1)], [(60, 1)], some 4⟩ _
    [(.numeric 55, .numeric 2)] [(.malformed, .numeric 1)] [(55, 2)]
    rfl rfl rfl (by rfl) (by rfl)

/-! ## Claim C10 — timestamp advanced for every handled frame -/

/-- Claim C10: a frame whose action is neither "snapshot" nor "update"
leaves both book sides untouched but still overwrites
last_update_ts with the frame's ts — the timestamp is advanced
unconditionally for every handled frame. -/
theorem C10_ts_overwritten_unconditionally (st : BookState) (f : RawFrame)
    (a : String) (t : ℤ)
    (ha : f.action = some a) (hs : a ≠ "snapshot") (hu : a ≠ "update")
    (ht : f.ts = some t) :
    update_order_book st f = ({ st with last_update_ts := some t }, none) := by
  unfold update_order_book
  rw [ha]
  dsimp only
  rw [if_neg hs, if_neg hu]
  unfold setTs
  rw [ht]

/-- Claim C10 witness: an unrecognized action with a fresh ts rewinds
nothing on the sides yet replaces the stored timestamp. -/
theorem C10_witness :
    update_order_book ⟨[(1, 2)], [(3, 4)], some 42⟩ ⟨some "delta", none, none, some 7⟩
      = (⟨[(1, 2)], [(3, 4)], some 7⟩, none) :=
  C10_ts_overwritten_unconditionally ⟨[(1, 2)], [(3, 4)], some 42⟩
    ⟨some "delta", none, none, some 7⟩ "delta" 7 rfl (by decide) (by decide) rfl

/-! ## Claim C4 — snapshot fully replaces prior state -/

/-- Claim C4: a well-formed snapshot frame with nonempty parsed sides
replaces both book sides regardless of prior content; the best-bid query
then returns an entry of the snapshot's bids of maximal price and the
best-ask query an entry of the snapshot's asks of minimal price. -/
theorem C4_snapshot_replaces (st : BookState) (f : RawFrame)
    (rawBids rawAsks : List RawEntry) (pb pa : List (ℚ × ℚ)) (t : ℤ)
    (ha : f.action = some "snapshot") (hb : f.bids = some rawBids)
    (hk : f.asks = some rawAsks) (hpb : parseSide rawBids = some pb)
    (hpa : parseSide rawAsks = some pa) (ht : f.ts = some t)
    (hpbne : pb ≠ []) (hpane : pa ≠ []) :
    (update_order_book st f).1.bids = dictOfList pb ∧
    (update_order_book st f).1.asks = dictOfList pa ∧
    (∃ bb : ℚ × ℚ, bestBid (update_order_book st f).1 = some bb ∧ bb ∈ pb ∧
      ∀ x ∈ pb, x.1 ≤ bb.1) ∧
    (∃ ba : ℚ × ℚ, bestAsk (update_order_book st f).1 = some ba ∧ ba ∈ pa ∧
      ∀ x ∈ pa, ba.1 ≤ x.1) := by
  rw [snapshot_apply ha hb hk hpb hpa ht]
  refine ⟨rfl, rfl, ?_, ?_⟩
  · cases hsd : sortDesc (dictOfList pb) with
    | nil => exact absurd (sortDesc_eq_nil.1 hsd) (dictOfList_ne_nil hpbne)
    | cons b tl =>
      obtain ⟨hmem, hmax⟩ := sortDesc_head_max hsd
      refine ⟨b, ?_, mem_dictOfList hmem, ?_⟩
      · rw [bestBid]
        dsimp only
        rw [hsd]
        rfl
      · intro x hx
        obtain ⟨y, hy, hyk⟩ := List.mem_map.1 (mem_keys_dictOfList hx)
        rw [← hyk]
        exact hmax y hy
  · cases hsa : sortAsc (dictOfList pa) with
    | nil => exact absurd (sortAsc_eq_nil.1 hsa) (dictOfList_ne_nil hpane)
    | cons b tl =>
      obtain ⟨hmem, hmin⟩ := sortAsc_head_min hsa
      refine ⟨b, ?_, mem_dictOfList hmem, ?_⟩
      · rw [bestAsk]
        dsimp only
        rw [hsa]
        rfl
      · intro x hx
        obtain ⟨y, hy, hyk⟩ := List.mem_map.1 (mem_keys_dictOfList hx)
        rw [← hyk]
        exact hmin y hy

/-- Claim C4 witness: the spec's §8 scenario snapshot applied over a
nonempty prior book yields best bid (100, 2) and best ask (101, 1). -/
theorem C4_witness :
    (update_order_book ⟨[(7, 1)], [(8, 1)], some 0⟩ scenarioFrame).1.bids
      = dictOfList [(100, 2), (99, 1)] ∧
    (update_order_book ⟨[(7, 1)], [(8, 1)], some 0⟩ scenarioFrame).1.asks
      = dictOfList [(101, 1), (102, 3)] ∧
    bestBid (update_order_book ⟨[(7, 1)], [(8, 1)], some 0⟩ scenarioFrame).1
      = some (100, 2) ∧
    bestAsk (update_order_book ⟨[(7, 1)], [(8, 1)], some 0⟩ scenarioFrame).1
      = some (101, 1) := by
  have h := C4_snapshot_replaces ⟨[(7, 1)], [(8, 1)], some 0⟩ scenarioFrame
    [(.numeric 100, .numeric 2), (.numeric 99, .numeric 1)]
    [(.numeric 101, .numeric 1), (.numeric 102, .numeric 3)]
    [(100, 2), (99, 1)] [(101, 1), (102, 3)] 9
    rfl rfl rfl (by rfl) (by rfl) rfl (by decide) (by decide)
  exact ⟨h.1, h.2.1, by rfl, by rfl⟩

/-! ## Claim C5 — incremental update entry semantics -/

/-- Claim C5: for one update entry applied to a side, size 0 at an
absent price is a no-op (idempotent delete); size 0 at a present price
removes exactly that level; positive size inserts-or-overwrites exactly
that level, all other lookups unchanged. -/
theorem C5_update_entry (d : Dict) (p q s : ℚ) :
    (dlookup d p = none → applyEntry d p 0 = d) ∧
    ((dlookup d p).isSome = true →
      dlookup (applyEntry d p 0) q = if q = p then none else dlookup d q) ∧
    (0 < s →
      dlookup (applyEntry d p s) q = if q = p then some s else dlookup d q) := by
  refine ⟨?_, ?_, ?_⟩
  · intro h
    unfold applyEntry
    rw [if_pos rfl, h]
    rfl
  · intro h
    unfold applyEntry
    rw [if_pos rfl, if_pos h]
    by_cases hq : q = p
    · subst hq; rw [if_pos rfl, dlookup_dictErase_self]
    · rw [if_neg hq, dlookup_dictErase_ne d hq]
  · intro hs
    unfold applyEntry
    rw [if_neg (ne_of_gt hs)]
    by_cases hq : q = p
    · subst hq; rw [if_pos rfl, dlookup_dictInsert_self]
    · rw [if_neg hq, dlookup_dictInsert_ne d s hq]

/-- Claim C5 witness: deleting absent price 99 from a one-level side is
a no-op; deleting present price 100 removes it; size 3 overwrites it. -/
theorem C5_witness :
    applyEntry [(100, 2)] 99 0 = [(100, 2)] ∧
    dlookup (applyEntry [(100, 2)] 100 0) 100 = none ∧
    dlookup (applyEntry [(100, 2)] 100 3) 100 = some 3 := by
  refine ⟨(C5_update_entry [(100, 2)] 99 99 1).1 (by decide), ?_, ?_⟩
  · have h := (C5_update_entry [(100, 2)] 100 100 1).2.1 (by decide)
    simpa using h
  · have h := (C5_update_entry [(100, 2)] 100 100 3).2.2 (by norm_num)
    simpa using h

/-! ## Claim C6 — signal classification -/

/-- Claim C6: the classifier is a pure deterministic function of the
feature dict and threshold: imbalance above the threshold yields BUY,
otherwise below the negated threshold yields SELL, every other value —
the threshold itself included (for the nonnegative thresholds the
program uses) — yields HOLD, and absent features or an absent imbalance
key yield HOLD; equal inputs always yield equal signals. -/
theorem C6_classifier (t bi : ℚ) :
    get_prediction t none = "HOLD" ∧
    get_prediction t (some ⟨none⟩) = "HOLD" ∧
    (t < bi → get_prediction t (some ⟨some bi⟩) = "BUY") ∧
    (¬ t < bi → bi < -t → get_prediction t (some ⟨some bi⟩) = "SELL") ∧
    (¬ t < bi → ¬ bi < -t → get_prediction t (some ⟨some bi⟩) = "HOLD") ∧
    (0 ≤ t → get_prediction t (some ⟨some t⟩) = "HOLD") ∧
    (∀ x y : Option FeatDict, x = y → get_prediction t x = get_prediction t y) := by
  refine ⟨rfl, rfl, ?_, ?_, ?_, ?_, ?_⟩
  · intro h
    unfold get_prediction
    dsimp only
    rw [if_pos h]
  · intro h1 h2
    unfold get_prediction
    dsimp only
    rw [if_neg h1, if_pos h2]
  · intro h1 h2
    unfold get_prediction
    dsimp only
    rw [if_neg h1, if_neg h2]
  · intro ht
    unfold get_prediction
    dsimp only
    rw [if_neg (lt_irrefl t), if_neg (by intro hc; exact absurd (lt_of_lt_of_le hc (neg_nonpos_of_nonneg ht)) (not_lt_of_le ht))]
  · intro x y h
    rw [h]

/-- Claim C6 witness: with the constructor's default threshold 0.2,
imbalance 0.5 buys, −0.5 sells, and the boundary value 0.2 holds. -/
theorem C6_witness :
    get_prediction (1/5) none = "HOLD" ∧
    get_prediction (1/5) (some ⟨some (1/2)⟩) = "BUY" ∧
    get_prediction (1/5) (some ⟨some (-1/2)⟩) = "SELL" ∧
    get_prediction (1/5) (some ⟨some (1/5)⟩) = "HOLD" :=
  ⟨(C6_classifier (1/5) 0).1,
   (C6_classifier (1/5) (1/2)).2.2.1 (by norm_num),
   (C6_classifier (1/5) (-1/2)).2.2.2.1 (by norm_num) (by norm_num),
   (C6_classifier (1/5) (1/5)).2.2.2.2.2.1 (by norm_num)⟩

/-! ## Claim C7 — book imbalance -/

theorem bidDepth5_nonneg {st : BookState} (h : ∀ kv ∈ st.bids, 0 ≤ kv.2) :
    0 ≤ bidDepth5 st := by
  unfold bidDepth5 sumSizes
  apply List.sum_nonneg
  intro x hx
  obtain ⟨kv, hkv, rfl⟩ := List.mem_map.1 hx
  exact h kv (mem_sortDesc.1 (List.mem_of_mem_take hkv))

theorem askDepth5_nonneg {st : BookState} (h : ∀ kv ∈ st.asks, 0 ≤ kv.2) :
    0 ≤ askDepth5 st := by
  unfold askDepth5 sumSizes
  apply List.sum_nonneg
  intro x hx
  obtain ⟨kv, hkv, rfl⟩ := List.mem_map.1 hx
  exact h kv (mem_sortAsc.1 (List.mem_of_mem_take hkv))

/-- Claim C7, counterexample to the [−1, 1] bound as stated: a reachable
book (snapshot sizes are unvalidated, see C2) holding a negative ask
size yields bookImbalance (3 − (−1)) / (3 + (−1)) = 2, outside [−1, 1]. -/
theorem C7_counterexample :
    extract_features
      (applyFrames initState
        [⟨some "snapshot", some [(.numeric 100, .numeric 3)],
          some [(.numeric 101, .numeric (-1))], some 1⟩]) [] none
      = .ok ⟨100, 101, 1, 201/2, 203/2, 2, 0, some 1, none⟩ ∧
    ¬ ((2 : ℚ) ≤ 1) := by
  constructor
  · have hst : applyFrames initState
        [⟨some "snapshot", some [(.numeric 100, .numeric 3)],
          some [(.numeric 101, .numeric (-1))], some 1⟩]
        = (⟨[(100, 3)], [(101, -1)], some 1⟩ : BookState) := by rfl
    rw [hst]
    rw [extract_features_eq (show sortDesc [((100 : ℚ), (3 : ℚ))] = [(100, 3)] from rfl)
      (show sortAsc [((101 : ℚ), (-1 : ℚ))] = [(101, -1)] from rfl)]
    rw [if_neg (by norm_num)]
    rw [show bidDepth5 (⟨[(100, 3)], [(101, -1)], some 1⟩ : BookState) = 3 from by
        norm_num [bidDepth5, sumSizes, sortDesc, insertDesc],
      show askDepth5 (⟨[(100, 3)], [(101, -1)], some 1⟩ : BookState) = -1 from by
        norm_num [askDepth5, sumSizes, sortAsc, insertAsc],
      show tradeVolume [] "buy" = 0 from rfl,
      show tradeVolume [] "sell" = 0 from rfl]
    simp only [ExtractResult.ok.injEq, Features.mk.injEq]
    norm_num
  · norm_num

/-- Claim C7 (amended): when every stored size is nonnegative (which the
code does not enforce, see C8), any feature vector the extraction
returns has bookImbalance = (bidDepth₅ − askDepth₅)/(bidDepth₅ +
askDepth₅) over the best-5 depths when their sum is nonzero, equal to 0
when both depths are zero, and always within [−1, 1]. -/
theorem C7_book_imbalance (st : BookState) (trades : List Trade) (ltt : Option ℤ)
    (f : Features)
    (hbn : ∀ kv ∈ st.bids, 0 ≤ kv.2) (han : ∀ kv ∈ st.asks, 0 ≤ kv.2)
    (hok : extract_features st trades ltt = .ok f) :
    (bidDepth5 st + askDepth5 st ≠ 0 →
      f.book_imbalance_5_levels =
        (bidDepth5 st - askDepth5 st) / (bidDepth5 st + askDepth5 st)) ∧
    (bidDepth5 st + askDepth5 st = 0 → f.book_imbalance_5_levels = 0) ∧
    -1 ≤ f.book_imbalance_5_levels ∧ f.book_imbalance_5_levels ≤ 1 := by
  have hbd : 0 ≤ bidDepth5 st := bidDepth5_nonneg hbn
  have had : 0 ≤ askDepth5 st := askDepth5_nonneg han
  cases hsb : sortDesc st.bids with
  | nil =>
    exfalso
    have hbe : st.bids = [] := sortDesc_eq_nil.1 hsb
    rw [extract_features, if_pos (by simp [hbe])] at hok
    exact ExtractResult.noConfusion hok
  | cons b tb =>
    cases hsa : sortAsc st.asks with
    | nil =>
      exfalso
      have hae : st.asks = [] := sortAsc_eq_nil.1 hsa
      rw [extract_features, if_pos (by simp [hae])] at hok
      exact ExtractResult.noConfusion hok
    | cons a ta =>
      rw [extract_features_eq hsb hsa] at hok
      by_cases hz : b.2 + a.2 = 0
      · rw [if_pos hz] at hok
        exact ExtractResult.noConfusion hok
      · rw [if_neg hz] at hok
        obtain rfl := (ExtractResult.ok.inj hok).symm
        dsimp only
        refine ⟨?_, ?_, ?_⟩
        · intro hne
          rw [if_pos (lt_of_le_of_ne (by linarith) (Ne.symm hne))]
        · intro hzz
          rw [if_neg (by rw [hzz]; exact lt_irrefl 0)]
        · by_cases hpos : 0 < bidDepth5 st + askDepth5 st
          · rw [if_pos hpos]
            constructor
            · rw [le_div_iff₀ hpos]; linarith
            · rw [div_le_one hpos]; linarith
          · rw [if_neg hpos]
            norm_num

/-- Claim C7 witness: the spec's §8 scenario book has best-5 depths 3
and 4, bookImbalance −1/7 ∈ [−1, 1]. -/
theorem C7_witness :
    extract_features ⟨[(100, 2), (99, 1)], [(101, 1), (102, 3)], some 5⟩ [] none
      = .ok ⟨100, 101, 1, 201/2, 302/3, -1/7, 0, some 5, none⟩ ∧
    -1 ≤ ((-1 : ℚ)/7) ∧ ((-1 : ℚ)/7) ≤ 1 := by
  have hok : extract_features ⟨[(100, 2), (99, 1)], [(101, 1), (102, 3)], some 5⟩ [] none
      = .ok ⟨100, 101, 1, 201/2, 302/3, -1/7, 0, some 5, none⟩ := by
    rw [extract_features_eq
      (show sortDesc [((100 : ℚ), (2 : ℚ)), (99, 1)] = [(100, 2), (99, 1)] from by decide)
      (show sortAsc [((101 : ℚ), (1 : ℚ)), (102, 3)] = [(101, 1), (102, 3)] from by decide)]
    rw [if_neg (by norm_num)]
    rw [show bidDepth5 (⟨[(100, 2), (99, 1)], [(101, 1), (102, 3)], some 5⟩ : BookState)
        = 3 from by norm_num [bidDepth5, sumSizes, sortDesc, insertDesc],
      show askDepth5 (⟨[(100, 2), (99, 1)], [(101, 1), (102, 3)], some 5⟩ : BookState)
        = 4 from by norm_num [askDepth5, sumSizes, sortAsc, insertAsc],
      show tradeVolume [] "buy" = 0 from rfl,
      show tradeVolume [] "sell" = 0 from rfl]
    simp only [ExtractResult.ok.injEq, Features.mk.injEq]
    norm_num
  have h := C7_book_imbalance ⟨[(100, 2), (99, 1)], [(101, 1), (102, 3)], some 5⟩ [] none
    ⟨100, 101, 1, 201/2, 302/3, -1/7, 0, some 5, none⟩ (by decide) (by decide) hok
  exact ⟨hok, by simpa using h.2.2.1, by simpa using h.2.2.2⟩

/-! ## Claim C8 — stored-size invariant -/

/-- Claim C8, counterexample to unconditional positivity: a snapshot
frame with a negative size installs it, so the invariant does not hold
for every frame sequence. -/
theorem C8_counterexample :
    (applyFrames initState
      [⟨some "snapshot", some [(.numeric 100, .numeric (-1))],
        some [(.numeric 101, .numeric 1)], some 1⟩]).bids = [(100, -1)] ∧
    ¬ sizesPos (applyFrames initState
      [⟨some "snapshot", some [(.numeric 100, .numeric (-1))],
        some [(.numeric 101, .numeric 1)], some 1⟩]).bids := by
  have hb : (applyFrames initState
      [⟨some "snapshot", some [(.numeric 100, .numeric (-1))],
        some [(.numeric 101, .numeric 1)], some 1⟩]).bids = [(100, -1)] := by rfl
  refine ⟨hb, fun hp => ?_⟩
  have := hp (100, -1) (by rw [hb]; exact List.mem_singleton_self _)
  norm_num at this

/-- Claim C8 (amended): after any sequence of snapshot and update
frames starting from the empty book, each side holds at most one entry
per price — unconditionally, by dict semantics; every stored size is
strictly positive provided every snapshot entry of the sequence has
strictly positive size and every update entry nonnegative size (without
that proviso positivity fails: nonpositive sizes are installed as-is). -/
theorem C8_invariant (fs : List RawFrame) :
    keysNodup (applyFrames initState fs).bids ∧
    keysNodup (applyFrames initState fs).asks ∧
    ((∀ f ∈ fs, frameSizesOk f) →
      sizesPos (applyFrames initState fs).bids ∧
      sizesPos (applyFrames initState fs).asks) := by
  have hn := @nodupInv_applyFrames initState fs
    ⟨by simp [keysNodup, keys, initState], by simp [keysNodup, keys, initState]⟩
  refine ⟨hn.1, hn.2, fun hok => ?_⟩
  have h := @bookInv_applyFrames initState fs
    ⟨by simp [keysNodup, keys, initState],
     by simp [keysNodup, keys, initState],
     by intro kv hkv; simp [initState] at hkv,
     by intro kv hkv; simp [initState] at hkv⟩ hok
  exact ⟨h.2.2.1, h.2.2.2⟩

/-- Claim C8 witness: a disciplined snapshot followed by a disciplined
update (delete + insert) keeps keys unique and all sizes positive. -/
theorem C8_witness :
    keysNodup (applyFrames initState disciplinedFrames).bids ∧
    keysNodup (applyFrames initState disciplinedFrames).asks ∧
    sizesPos (applyFrames initState disciplinedFrames).bids ∧
    sizesPos (applyFrames initState disciplinedFrames).asks := by
  have h := C8_invariant disciplinedFrames
  exact ⟨h.1, h.2.1, (h.2.2 (by decide)).1, (h.2.2 (by decide)).2⟩

/-! ## Claim C9 — broadcast independence -/

/-- Claim C9, counterexample to "the broadcast call itself does not fail
as a whole": with one closed and one open subscriber, the open one is
delivered to, but the call re-raises the closed handle's failure. -/
theorem C9_counterexample :
    broadcast_to_strategists [⟨0, true⟩, ⟨1, false⟩] "msg"
      = ([1], some .connectionClosed) := by rfl

/-- Claim C9 (amended): deliveries are independent — every
currently-open handle receives the message even when other handles'
connections are already closed — but the gather re-raises the first send
failure, so the broadcast call only succeeds as a whole when every
subscribed connection is open (the processing loop catches the failure;
the failed handle is removed by its own connection handler, not by
broadcast). -/
theorem C9_broadcast_delivery (clients : List Strategist) (m : String) :
    (broadcast_to_strategists clients m).1
      = (clients.filter (fun c => !c.closed)).map Strategist.id ∧
    ((broadcast_to_strategists clients m).2 = none ↔ ∀ c ∈ clients, c.closed = false) := by
  unfold broadcast_to_strategists
  by_cases hemp : clients = []
  · subst hemp
    simp
  · rw [if_neg (by simpa [List.isEmpty_iff] using hemp)]
    dsimp only
    refine ⟨broadcast_results_delivered clients, ?_⟩
    rw [show (clients.map (fun c => (c.id, sendTo c))).map Prod.snd
        = clients.map (fun c => sendTo c) by simp]
    exact broadcast_gather_none clients

/-- Claim C9 witness: with two open subscribers both are delivered to
and the call succeeds. -/
theorem C9_witness :
    (broadcast_to_strategists [⟨0, false⟩, ⟨1, false⟩] "msg").1 = [0, 1] ∧
    (broadcast_to_strategists [⟨0, false⟩, ⟨1, false⟩] "msg").2 = none := by
  have h := C9_broadcast_delivery [⟨0, false⟩, ⟨1, false⟩] "msg"
  exact ⟨by simpa using h.1, h.2.mpr (by decide)⟩

end GemBot
